import Mathlib

/-!
# Verification of the Virtual Manuscript Reviewer core

Shallow embedding of the revision-tracking and discussion-orchestration core
of the `virtual_manuscript_reviewer` package, together with proofs that
settle the specification's claims against it.

Conventions:
* Python `str` is `String`; `len` on a `str` is `String.length` (both count
  Unicode code points).
* Python `float` arithmetic on similarity scores is modelled as exact `ℚ`.
* Python `int` parameters that may be negative (version numbers passed by a
  caller) are `Int`.
* The third-party `diff_match_patch` library is an external collaborator;
  it is modelled by its documented contract (`DiffMatchPatch` below), not
  re-implemented.
* `agent.py` is imported by the package but absent from the sources; the
  `Agent` type is modelled from the spec (see its doc comment).
* Side effects (backend calls, tool searches, file persistence) are made
  observable by explicit state: call counters, a log of executed searches
  and tool outputs, and the persisted history file as a value.
-/

namespace VMR

/-! ## Diff engine (`revision_tracker.py` plus the external diff primitive) -/

/-- Diff operation constants of `diff_match_patch`:
`DIFF_DELETE = -1`, `DIFF_EQUAL = 0`, `DIFF_INSERT = 1`. -/
inductive DiffOp where
  | delete
  | equal
  | insert
deriving DecidableEq, Repr

/-- One `(op, text)` entry of a `diff_match_patch` diff list. -/
structure DiffChunk where
  op : DiffOp
  text : String
deriving DecidableEq, Repr

/-- `diff_levenshtein`'s loop: accumulate insertion and deletion lengths,
adding `max(insertions, deletions)` at each equality and at the end.
Mirrors `diff_match_patch.diff_levenshtein`. -/
def levAux : List DiffChunk → Nat → Nat → Nat
  | [], insertions, deletions => max insertions deletions
  | c :: cs, insertions, deletions =>
    match c.op with
    | .insert => levAux cs (insertions + c.text.length) deletions
    | .delete => levAux cs insertions (deletions + c.text.length)
    | .equal => max insertions deletions + levAux cs 0 0

/-- `diff_match_patch.diff_levenshtein(diffs)`: the Levenshtein distance of a
diff in terms of inserted, deleted or substituted characters. -/
def diff_levenshtein (ds : List DiffChunk) : Nat :=
  levAux ds 0 0

/-- The source text a diff list describes: concatenation of the texts of all
non-insert chunks. -/
def diffSourceText : List DiffChunk → String
  | [] => ""
  | c :: cs => (if c.op = .insert then "" else c.text) ++ diffSourceText cs

/-- The target text a diff list describes: concatenation of the texts of all
non-delete chunks. -/
def diffTargetText : List DiffChunk → String
  | [] => ""
  | c :: cs => (if c.op = .delete then "" else c.text) ++ diffTargetText cs

/-- A diff list is a valid edit script from `a` to `b` when replaying its
deletions/equalities reconstructs `a` and its equalities/insertions
reconstruct `b`. -/
def ValidDiff (a b : String) (ds : List DiffChunk) : Prop :=
  diffSourceText ds = a ∧ diffTargetText ds = b

/-- Total length of the texts of the insert chunks of a diff. -/
def totalInsLen : List DiffChunk → Nat
  | [] => 0
  | c :: cs => (if c.op = .insert then c.text.length else 0) + totalInsLen cs

/-- Total length of the texts of the delete chunks of a diff. -/
def totalDelLen : List DiffChunk → Nat
  | [] => 0
  | c :: cs => (if c.op = .delete then c.text.length else 0) + totalDelLen cs

/-- Model of the external `diff_match_patch` collaborator, as used by
`RevisionTracker.compare_versions` (`diff_main` followed by
`diff_cleanupSemantic`).  The fields record its documented contract:
the diff is a valid edit script between the two texts; identical texts give
a single pure-equality diff (empty for empty texts); and the Levenshtein
distance of a diff is at most the length of the longer string (documented
behaviour of `diff_levenshtein`). -/
structure DiffMatchPatch where
  diffs : String → String → List DiffChunk
  valid : ∀ a b, ValidDiff a b (diffs a b)
  self_eq : ∀ a, diffs a a = if a = "" then [] else [⟨.equal, a⟩]
  lev_le : ∀ a b, diff_levenshtein (diffs a b) ≤ max a.length b.length

/-- Python whitespace characters recognised by `str.strip()` (ASCII part;
the fragments handled by the tracker contain no exotic Unicode spacing). -/
def isPyWhitespace (c : Char) : Bool :=
  c = ' ' || c = '\t' || c = '\n' || c = '\r' || c = '\x0b' || c = '\x0c'

/-- Python `text.strip()`: remove leading and trailing whitespace. -/
def pyStrip (s : String) : String :=
  ⟨((s.data.dropWhile isPyWhitespace).reverse.dropWhile isPyWhitespace).reverse⟩

/-- Python `s[:n]` on a string: first `n` code points. -/
def pyTake (s : String) (n : Nat) : String :=
  ⟨s.data.take n⟩

/-- `RevisionDiff` dataclass of `revision_tracker.py`: differences between
manuscript versions. -/
structure RevisionDiff where
  additions : List String
  deletions : List String
  changes : List (String × String)
  similarity_score : ℚ
deriving DecidableEq

/-- The stripped texts of the insert chunks of a diff list, in order
(the `additions` list built by the loop in `compare_versions`). -/
def insertFragments (ds : List DiffChunk) : List String :=
  ds.filterMap fun c => if c.op = .insert then some (pyStrip c.text) else none

/-- The stripped texts of the delete chunks of a diff list, in order
(the `deletions` list built by the loop in `compare_versions`). -/
def deleteFragments (ds : List DiffChunk) : List String :=
  ds.filterMap fun c => if c.op = .delete then some (pyStrip c.text) else none

/-- The body of `RevisionTracker.compare_versions` after the two version
texts have been fetched (lines 183–207): run the diff primitive, collect
stripped added/deleted fragments, compute the similarity score from the
Levenshtein distance, and keep only fragments of length > 20. -/
def compareTexts (dmp : DiffMatchPatch) (text_a text_b : String) : RevisionDiff :=
  let diffs := dmp.diffs text_a text_b
  let additions := insertFragments diffs
  let deletions := deleteFragments diffs
  let levenshtein := diff_levenshtein diffs
  let max_len := max text_a.length text_b.length
  let similarity : ℚ :=
    if max_len > 0 then 1 - (levenshtein : ℚ) / (max_len : ℚ) else 1
  { additions := additions.filter fun a => a.length > 20
    deletions := deletions.filter fun d => d.length > 20
    changes := []
    similarity_score := similarity }

/-- A simple conforming instance of the diff primitive's contract, matching
the real library's documented behaviour on equal texts and on a pair with
one empty side: used to evaluate the development at concrete inputs. -/
def simpleDiffs (a b : String) : List DiffChunk :=
  if a = b then (if a = "" then [] else [⟨.equal, a⟩])
  else if a = "" then [⟨.insert, b⟩]
  else if b = "" then [⟨.delete, a⟩]
  else [⟨.delete, a⟩, ⟨.insert, b⟩]

/-- The conforming instance packaged with its contract proofs. -/
def simpleDMP : DiffMatchPatch where
  diffs := simpleDiffs
  valid := by
    intro a b
    unfold simpleDiffs ValidDiff
    by_cases hab : a = b
    · subst hab
      by_cases ha : a = "" <;>
        simp [ha, diffSourceText, diffTargetText]
    · by_cases ha : a = ""
      · subst ha
        simp [hab, diffSourceText, diffTargetText]
      · by_cases hb : b = ""
        · subst hb
          simp [hab, ha, diffSourceText, diffTargetText]
        · simp [hab, ha, hb, diffSourceText, diffTargetText]
  self_eq := by intro a; unfold simpleDiffs; simp
  lev_le := by
    intro a b
    unfold simpleDiffs diff_levenshtein
    by_cases hab : a = b
    · subst hab
      by_cases ha : a = "" <;> simp [ha, levAux]
    · by_cases ha : a = ""
      · subst ha
        rw [if_neg hab, if_pos rfl]
        simp [levAux]
      · by_cases hb : b = ""
        · simp [hab, ha, hb, levAux]
        · simp [hab, ha, hb, levAux]
          exact Nat.le_total b.length a.length

/-! ## Version store (`RevisionTracker` of `revision_tracker.py`) -/

/-- The document-source interface (spec §6): the fields of a `Manuscript`
that the revision-tracking core consumes. -/
structure Manuscript where
  title : String
  full_text : String
  version_hash : String
  source_path : Option String
deriving DecidableEq, Inhabited

/-- `ManuscriptVersion` dataclass: a version of a manuscript with its
review history. -/
structure ManuscriptVersion where
  manuscript : Manuscript
  version_number : Int
  review_summary : Option String
  author_response : Option String
  review_path : Option String
  timestamp : String
deriving DecidableEq, Inhabited

/-- One serialized version record as written by
`ManuscriptVersion.to_dict`. -/
structure VersionRecord where
  version_number : Int
  version_hash : String
  title : String
  review_summary : Option String
  author_response : Option String
  review_path : Option String
  timestamp : String
  source_path : Option String
deriving DecidableEq, Inhabited

/-- `ManuscriptVersion.to_dict` (lines 64–78). -/
def ManuscriptVersion.to_dict (v : ManuscriptVersion) : VersionRecord :=
  { version_number := v.version_number
    version_hash := v.manuscript.version_hash
    title := v.manuscript.title
    review_summary := v.review_summary
    author_response := v.author_response
    review_path := v.review_path
    timestamp := v.timestamp
    source_path := v.manuscript.source_path }

/-- The JSON object written to `revision_history.json`. -/
structure HistoryFile where
  versions : List VersionRecord
  last_updated : String
deriving DecidableEq, Inhabited

/-- The in-memory tracker plus the persisted history file of its project
directory, modelled as a value (`none` = file absent). -/
structure TrackerState where
  versions : List ManuscriptVersion
  historyFile : Option HistoryFile
deriving DecidableEq, Inhabited

/-- `RevisionTracker._load_history` (lines 97–107): if the history file
exists, parse it and iterate its version records; the loop body is `pass`
("Versions are loaded when manuscripts are re-added"), so nothing is added
to `self.versions`. -/
def loadHistory : Option HistoryFile → List ManuscriptVersion
  | none => []
  | some history => history.versions.foldl (fun acc _ => acc) []

/-- `RevisionTracker.__init__` (lines 84–95): start with an empty version
list and run `_load_history` against the project directory's persisted
file; the file itself is not modified. -/
def RevisionTracker.init (file : Option HistoryFile) : TrackerState :=
  { versions := loadHistory file, historyFile := file }

/-- `RevisionTracker._save_history` (lines 109–117): rewrite the entire
history file from the in-memory versions. `now` is `datetime.now()`. -/
def saveHistory (now : String) (st : TrackerState) : TrackerState :=
  { st with historyFile := some ⟨st.versions.map ManuscriptVersion.to_dict, now⟩ }

/-- `RevisionTracker.add_version` (lines 119–141). -/
def add_version (st : TrackerState) (manuscript : Manuscript)
    (author_response : Option String) (now : String) :
    TrackerState × ManuscriptVersion :=
  let version_number : Int := (st.versions.length : Int) + 1
  let version : ManuscriptVersion :=
    { manuscript := manuscript
      version_number := version_number
      review_summary := none
      author_response := author_response
      review_path := none
      timestamp := now }
  (saveHistory now { st with versions := st.versions ++ [version] }, version)

/-- Replace the element at index `i`, leaving the rest unchanged
(Python `self.versions[version_number - 1]` in-place mutation). -/
def modifyAt {α : Type} : List α → Nat → (α → α) → List α
  | [], _, _ => []
  | x :: xs, 0, f => f x :: xs
  | x :: xs, i + 1, f => x :: modifyAt xs i f

/-- `RevisionTracker.add_review` (lines 143–162).  The second component is
the message of the `ValueError` raised, if any; the raise happens before
any mutation or persistence, so on error the returned state is the input
state. -/
def add_review (st : TrackerState) (version_number : Int)
    (review_summary : String) (review_path : Option String) (now : String) :
    TrackerState × Option String :=
  if version_number < 1 ∨ version_number > (st.versions.length : Int) then
    (st, some ("Invalid version number: " ++ toString version_number))
  else
    let st' :=
      { st with
        versions :=
          modifyAt st.versions (version_number - 1).toNat fun v =>
            { v with review_summary := some review_summary, review_path := review_path } }
    (saveHistory now st', none)

/-- `RevisionTracker.compare_versions` (lines 164–207): range-check both
indices, then diff the two versions' full texts. -/
def compare_versions (dmp : DiffMatchPatch) (st : TrackerState)
    (version_a version_b : Int) : Except String RevisionDiff :=
  if version_a < 1 ∨ version_a > (st.versions.length : Int) then
    .error ("Invalid version number: " ++ toString version_a)
  else if version_b < 1 ∨ version_b > (st.versions.length : Int) then
    .error ("Invalid version number: " ++ toString version_b)
  else
    let text_a := ((st.versions.getD (version_a - 1).toNat default).manuscript).full_text
    let text_b := ((st.versions.getD (version_b - 1).toNat default).manuscript).full_text
    .ok (compareTexts dmp text_a text_b)

/-- Python truthiness of an optional string (`if version.review_summary:`):
`None` and the empty string are falsy. -/
def isTruthy : Option String → Bool
  | none => false
  | some s => s ≠ ""

/-- `RevisionTracker.get_previous_reviews` (lines 209–218). -/
def get_previous_reviews (st : TrackerState) : List String :=
  st.versions.filterMap fun v =>
    if isTruthy v.review_summary then some (v.review_summary.getD "") else none

/-- `RevisionTracker.get_latest_version` (lines 220–225). -/
def get_latest_version (st : TrackerState) : Option ManuscriptVersion :=
  st.versions.getLast?

/-- `RevisionDiff.get_summary` (lines 27–50).  Python's `{:.1%}` float
formatting is external; it is abstracted as `fmtPercent`. -/
def RevisionDiff.get_summary (fmtPercent : ℚ → String) (d : RevisionDiff) : String :=
  let addParts : List String :=
    if d.additions ≠ [] then
      ["**Additions (" ++ toString d.additions.length ++ "):**"]
      ++ (d.additions.take 5).map (fun add => "  + " ++ pyTake add 200 ++ "...")
      ++ (if d.additions.length > 5 then
            ["  ... and " ++ toString (d.additions.length - 5) ++ " more additions"]
          else [])
    else []
  let delParts : List String :=
    if d.deletions ≠ [] then
      ["\n**Deletions (" ++ toString d.deletions.length ++ "):**"]
      ++ (d.deletions.take 5).map (fun del => "  - " ++ pyTake del 200 ++ "...")
      ++ (if d.deletions.length > 5 then
            ["  ... and " ++ toString (d.deletions.length - 5) ++ " more deletions"]
          else [])
    else []
  let parts := addParts ++ delParts
    ++ ["\n**Similarity Score:** " ++ fmtPercent d.similarity_score]
  if parts ≠ [] then String.intercalate "\n" parts
  else "No significant changes detected."

/-- The loop of `get_revision_context` over `self.versions[:-1]` with
1-based enumeration (lines 237–244). -/
def contextParts : Nat → List ManuscriptVersion → List String
  | _, [] => []
  | i, v :: vs =>
    (if isTruthy v.review_summary then
       ["\n### Version " ++ toString i ++ " Review Summary",
        pyTake (v.review_summary.getD "") 2000]
     else [])
    ++ (if isTruthy v.author_response then
          ["\n### Authors' Response to Version " ++ toString i ++ " Review",
           pyTake (v.author_response.getD "") 2000]
        else [])
    ++ contextParts (i + 1) vs

/-- `RevisionTracker.get_revision_context` (lines 227–252).  The call
`compare_versions(len-1, len)` is in range whenever `len ≥ 2`, so the
guarded indexing is inlined (see `compare_versions_penultimate_ok`). -/
def get_revision_context (dmp : DiffMatchPatch) (fmtPercent : ℚ → String)
    (st : TrackerState) : String :=
  if st.versions.length ≤ 1 then ""
  else
    let parts :=
      ["This manuscript is on revision " ++ toString st.versions.length ++ "."]
      ++ contextParts 1 st.versions.dropLast
      ++ (if st.versions.length ≥ 2 then
            ["\n### Changes from Previous Version",
             (compareTexts dmp
               ((st.versions.getD (st.versions.length - 2) default).manuscript).full_text
               ((st.versions.getD (st.versions.length - 1) default).manuscript).full_text).get_summary
               fmtPercent]
          else [])
    String.intercalate "\n\n" parts

/-! ## Agents, transcript, tools (`run_review.py`, `utils.py`) -/

/-- Modelled from the spec: `agent.py` is imported throughout the package
but absent from the sources.  Spec §3/§4.3: an agent is a role descriptor
`{title, expertise, goal, role, model_id}`, immutable, with structural
equality/hashability used for team-uniqueness checks. -/
structure Agent where
  title : String
  expertise : String
  goal : String
  role : String
  model : String
deriving DecidableEq, Inhabited, Repr

/-- One tool invocation requested by the backend
(`ChatCompletionMessageToolCall`: id plus function name and raw JSON
argument string). -/
structure ToolCall where
  id : String
  name : String
  arguments : String
deriving DecidableEq, Inhabited, Repr

/-- One entry of the OpenAI-shaped message history (`messages` list in
`run_review`). -/
inductive ChatMessage where
  | system (content : String)
  | user (content : String)
  | assistant (content : String)
  | assistantWithTools (content : Option String) (tool_calls : List ToolCall)
  | tool (tool_call_id : String) (content : String)
deriving DecidableEq, Inhabited, Repr

/-- Modelled from the spec: `agent.message` (the persona system message
prefixed to every backend call), rendered from the agent's descriptive
fields per spec §4.3. -/
def Agent.persona (a : Agent) : String :=
  "You are a " ++ a.title ++ " with expertise in " ++ a.expertise ++
    ". Your goal is to " ++ a.goal ++ ". " ++ a.role

/-- Modelled from the spec: the agent's system message. -/
def Agent.message (a : Agent) : ChatMessage :=
  .system a.persona

/-- One entry of the `discussion` transcript:
`{"agent": ..., "message": ...}`. -/
structure Turn where
  agent : String
  message : String
deriving DecidableEq, Inhabited, Repr

/-- What `response.choices[0].message` provides to the orchestrator:
optional text content and a (possibly empty) tool-call list
(`None` tool calls are modelled as `[]`; both are falsy in the guard). -/
structure BackendResponse where
  content : Option String
  tool_calls : List ToolCall
deriving Inhabited

/-- `PUBMED_TOOL_NAME` from `constants.py`. -/
def PUBMED_TOOL_NAME : String := "pubmed_search"

/-- The external collaborators and prompt templates a run depends on:
the model backend (indexed by the number of calls already made), the
PubMed search (argument JSON string to formatted output, abstracting
`json.loads` plus `run_pubmed_search`), the tokenizer `count_tokens`
(tiktoken), and the five panel prompt builders from `prompts.py`
(string templates whose content the orchestration logic never inspects). -/
structure Env where
  backend : Nat → List ChatMessage → BackendResponse
  search : String → String
  tk : String → Nat
  startPrompt : String
  editorInitialPrompt : String
  editorFinalPrompt : String
  editorIntermediatePrompt : Nat → String
  reviewerPrompt : Agent → Nat → String

/-- `run_tools` from `utils.py` (lines 142–167).  The first component is
the log of searches actually executed (their raw argument strings, in
order) — the side effects that have happened even if a later call raises.
The second component is the returned pair of tool outputs and tool
response messages, or the `ValueError` raised at the first unknown tool
name. -/
def run_tools (env : Env) :
    List ToolCall → List String × Except String (List String × List ChatMessage)
  | [] => ([], .ok ([], []))
  | tc :: rest =>
    if tc.name = PUBMED_TOOL_NAME then
      let output := env.search tc.arguments
      let (log, r) := run_tools env rest
      (tc.arguments :: log,
       match r with
       | .ok (outs, msgs) => .ok (output :: outs, .tool tc.id output :: msgs)
       | .error e => .error e)
    else
      ([], .error ("Unknown tool: " ++ tc.name))

/-- Token-count accumulator (`token_counts` dict). -/
structure TokenCounts where
  input : Nat
  output : Nat
  max : Nat
  tool : Nat
deriving DecidableEq, Inhabited, Repr

/-- `update_token_counts` from `utils.py` (lines 181–199). -/
def update_token_counts (tk : String → Nat) (token_counts : TokenCounts)
    (discussion : List Turn) (response : String) : TokenCounts :=
  let new_input := (discussion.map fun turn => tk turn.message).sum
  let new_output := tk response
  { token_counts with
    input := token_counts.input + new_input
    output := token_counts.output + new_output
    max := max token_counts.max (new_input + new_output) }

/-- The `enumerate` loop of `count_discussion_tokens`: `pre` is
`discussion[:index]`. -/
def countAux (tk : String → Nat) :
    TokenCounts → List Turn → List Turn → TokenCounts
  | tc, _, [] => tc
  | tc, pre, turn :: rest =>
    countAux tk
      (if turn.agent != "User" then update_token_counts tk tc pre turn.message else tc)
      (pre ++ [turn]) rest

/-- `count_discussion_tokens` from `utils.py` (lines 202–218). -/
def count_discussion_tokens (tk : String → Nat) (discussion : List Turn) : TokenCounts :=
  countAux tk ⟨0, 0, 0, 0⟩ [] discussion

/-- `get_summary` from `utils.py` (lines 287–293): the last transcript
message (the transcript of a completed run is never empty). -/
def get_summary (discussion : List Turn) : String :=
  (discussion.getLastD default).message

/-! ## The discussion orchestrator (`run_review`, panel branch) -/

/-- The evolving run state: message history, transcript, tool token count,
plus instrumentation that makes side effects observable — the outputs of
executed tools and the number of backend calls made. -/
structure RunState where
  messages : List ChatMessage
  discussion : List Turn
  tool_token_count : Nat
  toolOutputsLog : List String
  calls : Nat
deriving Inhabited

/-- Prompt selection for one panel turn (lines 172–193): the editor gets
the initial / final / intermediate meeting prompt depending on the round,
every other team member gets the reviewer prompt for `round_num`. -/
def turnPrompt (env : Env) (editor : Agent) (num_rounds round_index : Nat)
    (agent : Agent) : String :=
  if agent = editor then
    if round_index = 0 then env.editorInitialPrompt
    else if round_index = num_rounds then env.editorFinalPrompt
    else env.editorIntermediatePrompt round_index
  else env.reviewerPrompt agent (round_index + 1)

/-- One agent turn of the round loop (lines 171–268): append the prompt as
a user message, call the backend with the agent's persona prefixed, handle
tool calls (execute them, append the `Tool` transcript entry and the tool
response messages, re-invoke the backend once with no tools), and append
the agent's final text.  Errors carry the number of backend calls made. -/
def runTurn (env : Env) (editor : Agent) (num_rounds round_index : Nat)
    (agent : Agent) (st : RunState) : Except (String × Nat) RunState :=
  let prompt := turnPrompt env editor num_rounds round_index agent
  let messages := st.messages ++ [.user prompt]
  let discussion := st.discussion ++ [⟨"User", prompt⟩]
  let response := env.backend st.calls (agent.message :: messages)
  let calls := st.calls + 1
  if response.tool_calls = [] then
    let content := (response.content).getD ""
    .ok { messages := messages ++ [.assistant content]
          discussion := discussion ++ [⟨agent.title, content⟩]
          tool_token_count := st.tool_token_count
          toolOutputsLog := st.toolOutputsLog
          calls := calls }
  else
    match (run_tools env response.tool_calls).2 with
    | .error e => .error (e, calls)
    | .ok (tool_outputs, tool_messages) =>
      let tool_token_count := st.tool_token_count + (tool_outputs.map env.tk).sum
      let messages := messages
        ++ [.assistantWithTools response.content response.tool_calls]
        ++ tool_messages
      let discussion := discussion ++ [⟨"Tool", String.intercalate "\n\n" tool_outputs⟩]
      let response2 := env.backend calls (agent.message :: messages)
      let content := (response2.content).getD ""
      .ok { messages := messages ++ [.assistant content]
            discussion := discussion ++ [⟨agent.title, content⟩]
            tool_token_count := tool_token_count
            toolOutputsLog := st.toolOutputsLog ++ tool_outputs
            calls := calls + 1 }

/-- The inner team loop of one round (lines 170–272): process the team in
order; on the final round, break after the first member (the editor). -/
def runAgents (env : Env) (editor : Agent) (num_rounds round_index : Nat) :
    List Agent → RunState → Except (String × Nat) RunState
  | [], st => .ok st
  | agent :: rest, st =>
    match runTurn env editor num_rounds round_index agent st with
    | .error e => .error e
    | .ok st' =>
      if round_index = num_rounds then .ok st'
      else runAgents env editor num_rounds round_index rest st'

/-- The result of a completed run: transcript, finalized token accounting,
summary, and the instrumentation (backend call count, executed tool
outputs). -/
structure RunResult where
  discussion : List Turn
  token_counts : TokenCounts
  summary : String
  calls : Nat
  toolOutputsLog : List String
deriving Inhabited

/-- The panel branch of `run_review` (lines 92–300) for an explicitly
given team: validation (lines 108–115), the seeding user turn (lines
151–163), the round loop over `round_index = 0 .. num_rounds` (lines
166–272), and finalization of token accounting and summary (lines
274–300).  The default-team and auto-generation paths (lines 94–107) are
outside this embedding: every claim supplies the team explicitly.
Validation errors carry a backend-call count of 0. -/
def run_review_panel (env : Env) (editor : Agent) (reviewers : List Agent)
    (reviewer : Option Agent) (num_rounds : Nat) :
    Except (String × Nat) RunResult :=
  if reviewers.length = 0 then
    .error ("Panel review requires at least one reviewer", 0)
  else if reviewer.isSome then
    .error ("Panel review does not use individual reviewer parameter", 0)
  else if editor ∈ reviewers then
    .error ("Editor must be separate from reviewers", 0)
  else if reviewers.dedup.length ≠ reviewers.length then
    .error ("Reviewers must be unique", 0)
  else
    match (List.range (num_rounds + 1)).foldlM
        (fun st round_index =>
          runAgents env editor num_rounds round_index (editor :: reviewers) st)
        { messages := [.user env.startPrompt]
          discussion := [⟨"User", env.startPrompt⟩]
          tool_token_count := 0
          toolOutputsLog := []
          calls := 0 } with
    | .error e => .error e
    | .ok st =>
      .ok { discussion := st.discussion
            token_counts :=
              { input := (count_discussion_tokens env.tk st.discussion).input
                output := (count_discussion_tokens env.tk st.discussion).output
                max := (count_discussion_tokens env.tk st.discussion).max
                tool := st.tool_token_count }
            summary := get_summary st.discussion
            calls := st.calls
            toolOutputsLog := st.toolOutputsLog }

/-! ## Specification-side readings used to compare against the code -/

/-- Each turn of a transcript paired with the prefix of turns before it. -/
def withPrefixes : List Turn → List Turn → List (List Turn × Turn)
  | _, [] => []
  | pre, t :: rest => (pre, t) :: withPrefixes (pre ++ [t]) rest

/-- Token count of a transcript prefix (`sum(count_tokens(turn["message"])
for turn in discussion)`). -/
def prefixTokens (tk : String → Nat) (discussion : List Turn) : Nat :=
  (discussion.map fun turn => tk turn.message).sum

/-- A turn the code's accounting includes: any non-`"User"` entry. -/
def isNonUser (t : Turn) : Bool :=
  t.agent != "User"

/-- Following the claim's words: an assistant (agent-attributed) entry,
excluding both the `"User"` prompts and the `"Tool"` outputs. -/
def claimIsAssistant (t : Turn) : Bool :=
  t.agent != "User" && t.agent != "Tool"

/-- Sum over the non-User entries of the token count of the transcript
prefix before each. -/
def nonUserInput (tk : String → Nat) (d : List Turn) : Nat :=
  (((withPrefixes [] d).filter fun p => isNonUser p.2).map fun p => prefixTokens tk p.1).sum

/-- Sum of the non-User entries' own token counts. -/
def nonUserOutput (tk : String → Nat) (d : List Turn) : Nat :=
  ((d.filter isNonUser).map fun t => tk t.message).sum

/-- Maximum over the non-User entries of prefix + own token count. -/
def nonUserMax (tk : String → Nat) (d : List Turn) : Nat :=
  ((withPrefixes [] d).filter fun p => isNonUser p.2).foldl
    (fun acc p => max acc (prefixTokens tk p.1 + tk p.2.message)) 0

/-- Following the claim's words: sum over exactly the assistant entries of
the token count of the transcript prefix before each. -/
def claimAssistantInput (tk : String → Nat) (d : List Turn) : Nat :=
  (((withPrefixes [] d).filter fun p => claimIsAssistant p.2).map fun p => prefixTokens tk p.1).sum

/-- The agent attributions of the assistant (non-User, non-Tool) entries of
a transcript, in order. -/
def assistantAgents (d : List Turn) : List String :=
  (d.filter claimIsAssistant).map Turn.agent

/-- Substring containment. -/
def ContainsSub (s sub : String) : Prop :=
  ∃ l r, s = l ++ sub ++ r

/-! ## Concrete instances used by witnesses and counterexamples -/

/-- A backend that issues one PubMed tool call on its first invocation and
plain text afterwards; used to exercise the tool path at a concrete input. -/
def envToolOnce : Env :=
  { backend := fun n _ =>
      if n = 0 then ⟨some "x", [⟨"id1", "pubmed_search", "args"⟩]⟩
      else ⟨some "done", []⟩
    search := fun _ => "OUT"
    tk := String.length
    startPrompt := "S"
    editorInitialPrompt := "P"
    editorFinalPrompt := "F"
    editorIntermediatePrompt := fun _ => "I"
    reviewerPrompt := fun _ _ => "R" }

/-- A backend that never requests tools. -/
def envPlain : Env :=
  { backend := fun _ _ => ⟨some "ok", []⟩
    search := fun _ => "OUT"
    tk := String.length
    startPrompt := "S"
    editorInitialPrompt := "P"
    editorFinalPrompt := "F"
    editorIntermediatePrompt := fun _ => "I"
    reviewerPrompt := fun _ _ => "R" }

/-- Concrete editor for witnesses. -/
def editorW : Agent := ⟨"Editor", "e", "g", "r", "m"⟩

/-- Concrete reviewers for witnesses. -/
def reviewerW1 : Agent := ⟨"Rev1", "e1", "g1", "r1", "m"⟩

def reviewerW2 : Agent := ⟨"Rev2", "e2", "g2", "r2", "m"⟩

def reviewerW3 : Agent := ⟨"Rev3", "e3", "g3", "r3", "m"⟩

/-- The tool-path run used by the token-accounting counterexample:
`num_rounds = 0`, one reviewer (never reached — final round breaks after
the editor). -/
def runToolOnce : Except (String × Nat) RunResult :=
  run_review_panel envToolOnce editorW [reviewerW1] none 0

/-- Concrete store with two versions used to evaluate the claims about the
revision context and review attachment. -/
def storeTwoW : TrackerState :=
  { versions :=
      [ { manuscript := ⟨"T1", "old text", "h1", none⟩
          version_number := 1
          review_summary := some "Good paper"
          author_response := none
          review_path := none
          timestamp := "t1" },
        { manuscript := ⟨"T2", "new text", "h2", none⟩
          version_number := 2
          review_summary := some "Better"
          author_response := none
          review_path := none
          timestamp := "t2" } ]
    historyFile := none }

/-! # Theorems -/

/-! ## General helper lemmas -/

/-- A string of length zero is the empty string. -/
theorem eq_empty_of_length_zero {s : String} (h : s.length = 0) : s = "" := by
  cases s with
  | mk data =>
    cases data with
    | nil => rfl
    | cons x xs => simp at h

/-- The accumulated insertion length is dominated by the Levenshtein loop. -/
theorem totalInsLen_add_le_levAux (ds : List DiffChunk) :
    ∀ insertions deletions, totalInsLen ds + insertions ≤ levAux ds insertions deletions := by
  induction ds with
  | nil => intro insertions deletions; simp [totalInsLen, levAux]
  | cons c cs ih =>
    intro insertions deletions
    cases hop : c.op <;> simp [totalInsLen, levAux, hop]
    · have := ih insertions (deletions + c.text.length)
      omega
    · have := ih 0 0
      omega
    · have := ih (insertions + c.text.length) deletions
      omega

/-- The accumulated deletion length is dominated by the Levenshtein loop. -/
theorem totalDelLen_add_le_levAux (ds : List DiffChunk) :
    ∀ insertions deletions, totalDelLen ds + deletions ≤ levAux ds insertions deletions := by
  induction ds with
  | nil => intro insertions deletions; simp [totalDelLen, levAux]
  | cons c cs ih =>
    intro insertions deletions
    cases hop : c.op <;> simp [totalDelLen, levAux, hop]
    · have := ih insertions (deletions + c.text.length)
      omega
    · have := ih 0 0
      omega
    · have := ih (insertions + c.text.length) deletions
      omega

/-- A diff of Levenshtein distance zero has no inserted or deleted text, so
its source and target texts coincide. -/
theorem source_eq_target_of_lev_zero (ds : List DiffChunk)
    (h : diff_levenshtein ds = 0) : diffSourceText ds = diffTargetText ds := by
  have hins : totalInsLen ds = 0 := by
    have := totalInsLen_add_le_levAux ds 0 0
    unfold diff_levenshtein at h; omega
  have hdel : totalDelLen ds = 0 := by
    have := totalDelLen_add_le_levAux ds 0 0
    unfold diff_levenshtein at h; omega
  clear h
  induction ds with
  | nil => rfl
  | cons c cs ih =>
    simp only [totalInsLen] at hins
    simp only [totalDelLen] at hdel
    have hins' : totalInsLen cs = 0 := by omega
    have hdel' : totalDelLen cs = 0 := by omega
    have hrec := ih hins' hdel'
    cases hop : c.op
    · have hlen : c.text.length = 0 := by simp [hop] at hdel; omega
      simp [diffSourceText, diffTargetText, hop, eq_empty_of_length_zero hlen, hrec]
    · simp [diffSourceText, diffTargetText, hop, hrec]
    · have hlen : c.text.length = 0 := by simp [hop] at hins; omega
      simp [diffSourceText, diffTargetText, hop, eq_empty_of_length_zero hlen, hrec]

/-- The similarity score as computed by `compare_versions`. -/
theorem compareTexts_similarity (dmp : DiffMatchPatch) (a b : String) :
    (compareTexts dmp a b).similarity_score =
      (if 0 < max a.length b.length then
        1 - (diff_levenshtein (dmp.diffs a b) : ℚ) / ((max a.length b.length : Nat) : ℚ)
       else 1) := rfl

/-- A nonempty string has positive length. -/
theorem length_pos_of_ne_empty {s : String} (h : s ≠ "") : 0 < s.length := by
  rcases Nat.eq_zero_or_pos s.length with h0 | h0
  · exact absurd (eq_empty_of_length_zero h0) h
  · exact h0

/-! ## C1: similarity formula, range, and the empty-texts case -/

/-- C1: for every pair of stored contents, `compare_versions` returns a
similarity score equal to `1 - (edit_distance / max(len(text_a),
len(text_b)))` clamped to `[0, 1]` (the clamp is vacuous because the diff
primitive's Levenshtein distance never exceeds the longer length, so the
code's unclamped value already lies in `[0, 1]`); when both texts are empty
the similarity is `1`. -/
theorem compare_similarity_clamped (dmp : DiffMatchPatch) (a b : String) :
    (0 ≤ (compareTexts dmp a b).similarity_score
      ∧ (compareTexts dmp a b).similarity_score ≤ 1)
    ∧ (0 < max a.length b.length →
        (compareTexts dmp a b).similarity_score =
          max 0 (min 1 (1 - (diff_levenshtein (dmp.diffs a b) : ℚ)
            / ((max a.length b.length : Nat) : ℚ))))
    ∧ (a = "" → b = "" → (compareTexts dmp a b).similarity_score = 1) := by
  rw [compareTexts_similarity]
  by_cases hM : 0 < max a.length b.length
  · rw [if_pos hM]
    have hL : diff_levenshtein (dmp.diffs a b) ≤ max a.length b.length := dmp.lev_le a b
    have hMq : (0 : ℚ) < ((max a.length b.length : Nat) : ℚ) := by exact_mod_cast hM
    have hdiv0 : (0 : ℚ) ≤ (diff_levenshtein (dmp.diffs a b) : ℚ)
        / ((max a.length b.length : Nat) : ℚ) := by positivity
    have hdiv1 : (diff_levenshtein (dmp.diffs a b) : ℚ)
        / ((max a.length b.length : Nat) : ℚ) ≤ 1 := by
      rw [div_le_one hMq]
      exact_mod_cast hL
    refine ⟨⟨by linarith, by linarith⟩, fun _ => ?_, fun ha hb => ?_⟩
    · rw [min_eq_right (show 1 - (diff_levenshtein (dmp.diffs a b) : ℚ)
          / ((max a.length b.length : Nat) : ℚ) ≤ 1 by linarith)]
      exact (max_eq_right (by linarith)).symm
    · subst ha; subst hb; simp at hM
  · rw [if_neg hM]
    exact ⟨⟨by norm_num, le_refl 1⟩, fun h => absurd h hM, fun _ _ => rfl⟩

/-- Witness for C1: evaluated at `"ab"` vs `"b"` (clamped formula case) and
at the empty pair (similarity `1`). -/
theorem compare_similarity_clamped_witness :
    (0 < max (String.length "ab") (String.length "b")
      ∧ (compareTexts simpleDMP "ab" "b").similarity_score =
        max 0 (min 1 (1 - (diff_levenshtein (simpleDMP.diffs "ab" "b") : ℚ)
          / ((max (String.length "ab") (String.length "b") : Nat) : ℚ))))
    ∧ (compareTexts simpleDMP "" "").similarity_score = 1 :=
  ⟨⟨by decide, (compare_similarity_clamped simpleDMP "ab" "b").2.1 (by decide)⟩,
   (compare_similarity_clamped simpleDMP "" "").2.2 rfl rfl⟩

/-! ## C4: self-diff is trivial; similarity `1` iff byte-identical -/

/-- C4: `diff(a, a)` has similarity exactly `1` and empty additions and
deletions, and in general the similarity equals `1` if and only if the two
compared contents are identical (distinct contents score strictly below
`1`). -/
theorem similarity_one_iff_identical (dmp : DiffMatchPatch) (a b : String) :
    ((compareTexts dmp a a).similarity_score = 1
      ∧ (compareTexts dmp a a).additions = []
      ∧ (compareTexts dmp a a).deletions = [])
    ∧ ((compareTexts dmp a b).similarity_score = 1 ↔ a = b)
    ∧ (a ≠ b → (compareTexts dmp a b).similarity_score < 1) := by
  have self_score : ∀ c : String, (compareTexts dmp c c).similarity_score = 1 := by
    intro c
    rw [compareTexts_similarity]
    by_cases hc : c = ""
    · subst hc; simp
    · have hpos : 0 < max c.length c.length := by
        simpa using length_pos_of_ne_empty hc
      rw [if_pos hpos]
      have hlev : diff_levenshtein (dmp.diffs c c) = 0 := by
        rw [dmp.self_eq c, if_neg hc]
        simp [diff_levenshtein, levAux]
      rw [hlev]
      simp
  have self_frag : (compareTexts dmp a a).additions = []
      ∧ (compareTexts dmp a a).deletions = [] := by
    have : (insertFragments (dmp.diffs a a) = [] ∧ deleteFragments (dmp.diffs a a) = []) := by
      rw [dmp.self_eq a]
      by_cases ha : a = "" <;>
        simp [ha, insertFragments, deleteFragments]
    unfold compareTexts
    simp only
    rw [this.1, this.2]
    exact ⟨rfl, rfl⟩
  have score_le : (compareTexts dmp a b).similarity_score ≤ 1 := by
    rw [compareTexts_similarity]
    by_cases hM : 0 < max a.length b.length
    · rw [if_pos hM]
      have : (0 : ℚ) ≤ (diff_levenshtein (dmp.diffs a b) : ℚ)
          / ((max a.length b.length : Nat) : ℚ) := by positivity
      linarith
    · rw [if_neg hM]
  have score_mp : (compareTexts dmp a b).similarity_score = 1 → a = b := by
    intro h1
    rw [compareTexts_similarity] at h1
    by_cases hM : 0 < max a.length b.length
    · rw [if_pos hM] at h1
      have hMq : ((max a.length b.length : Nat) : ℚ) ≠ 0 := by
        exact_mod_cast Nat.pos_iff_ne_zero.mp hM
      have hdiv : (diff_levenshtein (dmp.diffs a b) : ℚ)
          / ((max a.length b.length : Nat) : ℚ) = 0 := by linarith
      have hlev : diff_levenshtein (dmp.diffs a b) = 0 := by
        rcases div_eq_zero_iff.mp hdiv with h | h
        · exact_mod_cast h
        · exact absurd h hMq
      have hvalid := dmp.valid a b
      have := source_eq_target_of_lev_zero (dmp.diffs a b) hlev
      rw [hvalid.1, hvalid.2] at this
      exact this
    · have ha : a.length = 0 := by omega
      have hb : b.length = 0 := by omega
      rw [eq_empty_of_length_zero ha, eq_empty_of_length_zero hb]
  refine ⟨⟨self_score a, self_frag⟩, ⟨score_mp, ?_⟩, ?_⟩
  · intro h
    subst h
    exact self_score a
  · intro hne
    exact lt_of_le_of_ne score_le fun heq => hne (score_mp heq)

/-- Witness for C4's distinctness hypothesis: `"x"` vs `"y"` score strictly
below `1`. -/
theorem similarity_one_iff_identical_witness :
    ("x" : String) ≠ "y"
    ∧ (compareTexts simpleDMP "x" "y").similarity_score < 1 :=
  ⟨by decide, (similarity_one_iff_identical simpleDMP "x" "y").2.2 (by decide)⟩

/-! ## C5: the significance filter keeps only fragments longer than 20 -/

/-- C5 counterexample: the claim says every fragment of 20 or more
characters is reported, but the code keeps only fragments with
`len(fragment) > 20`: diffing `""` against a 20-character text (the
library's diff of an empty source against `s` is the single insertion
`[(+1, s)]`) yields a 20-character added fragment that is *not* reported. -/
theorem twenty_char_fragment_dropped :
    simpleDMP.diffs "" "aaaaaaaaaaaaaaaaaaaa" =
      [⟨DiffOp.insert, "aaaaaaaaaaaaaaaaaaaa"⟩]
    ∧ (pyStrip "aaaaaaaaaaaaaaaaaaaa").length = 20
    ∧ (compareTexts simpleDMP "" "aaaaaaaaaaaaaaaaaaaa").additions = [] :=
  ⟨by decide, by decide, by decide⟩

/-- C5 amended: a changed fragment (after whitespace stripping) is excluded
from the reported additions/deletions exactly when its length is at most 20
characters — only strictly longer fragments are reported — and the excluded
fragments still count toward the edit distance used for the similarity
score (which is computed from the full, unfiltered diff). -/
theorem fragment_filter_threshold (dmp : DiffMatchPatch) (a b : String) :
    (compareTexts dmp a b).additions =
        (insertFragments (dmp.diffs a b)).filter (fun s => 20 < s.length)
    ∧ (compareTexts dmp a b).deletions =
        (deleteFragments (dmp.diffs a b)).filter (fun s => 20 < s.length)
    ∧ (∀ s, s ∈ (compareTexts dmp a b).additions ↔
        s ∈ insertFragments (dmp.diffs a b) ∧ 20 < s.length)
    ∧ (compareTexts dmp a b).similarity_score =
        (if 0 < max a.length b.length then
          1 - (diff_levenshtein (dmp.diffs a b) : ℚ) / ((max a.length b.length : Nat) : ℚ)
         else 1) := by
  refine ⟨rfl, rfl, ?_, compareTexts_similarity dmp a b⟩
  intro s
  show s ∈ (insertFragments (dmp.diffs a b)).filter (fun s => 20 < s.length) ↔ _
  simp [List.mem_filter]

/-! ## C2: reload behaviour of the version store -/

/-- A fold that ignores its elements keeps its accumulator. -/
theorem foldl_keep_acc {α β : Type} (l : List α) (b : β) :
    l.foldl (fun acc _ => acc) b = b := by
  induction l generalizing b with
  | nil => rfl
  | cons x xs ih => exact ih b

/-- C2 counterexample: a persisted history file holding one version record
yields, after construction (process restart), a store with *zero* in-memory
history entries — the metadata is parsed and discarded, not kept in the
store as the claim states. -/
theorem restart_store_empty :
    ((⟨[⟨1, "h", "t", none, none, none, "ts", none⟩], "ts"⟩ : HistoryFile)).versions.length = 1
    ∧ (RevisionTracker.init
        (some ⟨[⟨1, "h", "t", none, none, none, "ts", none⟩], "ts"⟩)).versions.length = 0 :=
  ⟨rfl, rfl⟩

/-- C2 amended: constructing a store over a project directory whose
persisted history file contains `n` version records yields a store with an
*empty* in-memory version list (`_load_history` parses the records but its
loop body is `pass`; versions are only restored by re-adding manuscripts),
while the persisted file itself is left unchanged, so the `n` metadata
records survive only on disk. -/
theorem init_loads_no_versions (file : Option HistoryFile) :
    (RevisionTracker.init file).versions = []
    ∧ (RevisionTracker.init file).historyFile = file := by
  constructor
  · show loadHistory file = []
    cases file with
    | none => rfl
    | some h => exact foldl_keep_acc h.versions []
  · rfl

/-! ## C6: `add_review` range checking, atomicity, and persistence -/

/-- `modifyAt` preserves length. -/
theorem modifyAt_length {α : Type} (f : α → α) :
    ∀ (l : List α) (i : Nat), (modifyAt l i f).length = l.length := by
  intro l
  induction l with
  | nil => intro i; rfl
  | cons x xs ih =>
    intro i
    cases i with
    | zero => rfl
    | succ i => simp [modifyAt, ih i]

/-- `modifyAt` leaves every other index unchanged. -/
theorem getD_modifyAt_ne {α : Type} (f : α → α) (d : α) :
    ∀ (l : List α) (i j : Nat), j ≠ i → (modifyAt l i f).getD j d = l.getD j d := by
  intro l
  induction l with
  | nil => intro i j _; rfl
  | cons x xs ih =>
    intro i j hne
    cases i with
    | zero =>
      cases j with
      | zero => exact absurd rfl hne
      | succ j => rfl
    | succ i =>
      cases j with
      | zero => rfl
      | succ j => simpa [modifyAt] using ih i j (by omega)

/-- `modifyAt` applies the update exactly at its index. -/
theorem getD_modifyAt_self {α : Type} (f : α → α) (d : α) :
    ∀ (l : List α) (i : Nat), i < l.length → (modifyAt l i f).getD i d = f (l.getD i d) := by
  intro l
  induction l with
  | nil => intro i h; simp at h
  | cons x xs ih =>
    intro i h
    cases i with
    | zero => rfl
    | succ i => simpa [modifyAt] using ih i (by simpa using h)

/-- C6: `add_review(version_number, summary, artifact_path?)` raises an
out-of-range `ValueError` iff `version_number` is not in `[1, count]`; on
that error the store is left completely unmodified (the raise precedes any
mutation or persistence); otherwise it updates exactly that version's
`review_summary` and `review_path`, leaves every other version untouched,
and persists the full store. -/
theorem add_review_spec (st : TrackerState) (version_number : Int)
    (summary : String) (path : Option String) (now : String) :
    ((add_review st version_number summary path now).2.isSome ↔
      ¬(1 ≤ version_number ∧ version_number ≤ (st.versions.length : Int)))
    ∧ ((add_review st version_number summary path now).2.isSome →
        (add_review st version_number summary path now).1 = st)
    ∧ ((add_review st version_number summary path now).2 = none →
        (add_review st version_number summary path now).1.versions.length
            = st.versions.length
        ∧ (add_review st version_number summary path now).1.versions.getD
              (version_number - 1).toNat default =
            { st.versions.getD (version_number - 1).toNat default with
              review_summary := some summary, review_path := path }
        ∧ (∀ j, j ≠ (version_number - 1).toNat →
            (add_review st version_number summary path now).1.versions.getD j default
              = st.versions.getD j default)
        ∧ (add_review st version_number summary path now).1.historyFile =
            some ⟨(add_review st version_number summary path now).1.versions.map
              ManuscriptVersion.to_dict, now⟩) := by
  by_cases h : version_number < 1 ∨ version_number > (st.versions.length : Int)
  · unfold add_review
    rw [if_pos h]
    refine ⟨?_, fun _ => rfl, fun hc => absurd hc (by simp)⟩
    simp only [Option.isSome_some, true_iff]
    omega
  · unfold add_review
    rw [if_neg h]
    push_neg at h
    have hidx : (version_number - 1).toNat < st.versions.length := by omega
    refine ⟨?_, fun hc => absurd hc (by simp), fun _ => ?_⟩
    · simp only [Option.isSome_none, Bool.false_eq_true, false_iff, not_not]
      omega
    · refine ⟨?_, ?_, ?_, rfl⟩
      · exact modifyAt_length _ st.versions _
      · exact getD_modifyAt_self _ default st.versions _ hidx
      · intro j hj
        exact getD_modifyAt_ne _ default st.versions _ j hj

/-- Witness for C6: out-of-range `0` errors and leaves the two-version
store unchanged; in-range `1` updates exactly version 1's review fields. -/
theorem add_review_spec_witness :
    ((add_review storeTwoW 0 "s" none "now").2.isSome
      ∧ (add_review storeTwoW 0 "s" none "now").1 = storeTwoW)
    ∧ (add_review storeTwoW 1 "s" none "now").1.versions.getD 0 default =
        { storeTwoW.versions.getD 0 default with
          review_summary := some "s", review_path := none } := by
  refine ⟨⟨?_, ?_⟩, ?_⟩
  · exact ((add_review_spec storeTwoW 0 "s" none "now").1).mpr (by decide)
  · exact (add_review_spec storeTwoW 0 "s" none "now").2.1
      (((add_review_spec storeTwoW 0 "s" none "now").1).mpr (by decide))
  · have h := ((add_review_spec storeTwoW 1 "s" none "now").2.2 (by decide)).2.1
    simpa using h

/-! ## C8: the revision context -/

/-- The internal call `compare_versions(len - 1, len)` made by
`get_revision_context` is always in range when the store holds at least two
versions, and returns the inlined diff used in the embedding. -/
theorem compare_versions_penultimate_ok (dmp : DiffMatchPatch)
    (st : TrackerState) (h : 2 ≤ st.versions.length) :
    compare_versions dmp st ((st.versions.length : Int) - 1)
        (st.versions.length : Int) =
      .ok (compareTexts dmp
        ((st.versions.getD (st.versions.length - 2) default).manuscript).full_text
        ((st.versions.getD (st.versions.length - 1) default).manuscript).full_text) := by
  unfold compare_versions
  rw [if_neg (by omega), if_neg (by omega)]
  have e1 : ((st.versions.length : Int) - 1 - 1).toNat = st.versions.length - 2 := by
    omega
  have e2 : ((st.versions.length : Int) - 1).toNat = st.versions.length - 1 := by
    omega
  rw [e1, e2]

/-- The `String.intercalate` loop appends to its accumulator. -/
theorem intercalate_go_extend (sep : String) :
    ∀ (l : List String) (acc : String),
      ∃ q, String.intercalate.go acc sep l = acc ++ q := by
  intro l
  induction l with
  | nil => intro acc; exact ⟨"", by simp [String.intercalate.go]⟩
  | cons a as ih =>
    intro acc
    obtain ⟨q, hq⟩ := ih (acc ++ sep ++ a)
    exact ⟨sep ++ a ++ q, by
      rw [show String.intercalate.go acc sep (a :: as)
            = String.intercalate.go (acc ++ sep ++ a) sep as from rfl, hq]
      simp [String.append_assoc]⟩

/-- Any designated element of an intercalated list appears as a factor. -/
theorem intercalate_go_decomp (sep x : String) :
    ∀ (l1 l2 : List String) (acc : String),
      ∃ p q, String.intercalate.go acc sep (l1 ++ x :: l2) = p ++ x ++ q := by
  intro l1
  induction l1 with
  | nil =>
    intro l2 acc
    obtain ⟨q, hq⟩ := intercalate_go_extend sep l2 (acc ++ sep ++ x)
    exact ⟨acc ++ sep, q, by
      rw [List.nil_append, show String.intercalate.go acc sep (x :: l2)
            = String.intercalate.go (acc ++ sep ++ x) sep l2 from rfl, hq]⟩
  | cons a l1 ih =>
    intro l2 acc
    obtain ⟨p, q, hpq⟩ := ih l2 (acc ++ sep ++ a)
    exact ⟨p, q, by
      rw [List.cons_append, show String.intercalate.go acc sep (a :: (l1 ++ x :: l2))
            = String.intercalate.go (acc ++ sep ++ a) sep (l1 ++ x :: l2) from rfl, hpq]⟩

/-- Any adjacent pair of an intercalated list appears, joined by the
separator, as a factor. -/
theorem intercalate_go_pair (sep x y : String) :
    ∀ (l1 l2 : List String) (acc : String),
      ∃ p q, String.intercalate.go acc sep (l1 ++ x :: y :: l2) = p ++ (x ++ sep ++ y) ++ q := by
  intro l1
  induction l1 with
  | nil =>
    intro l2 acc
    obtain ⟨q, hq⟩ := intercalate_go_extend sep l2 (acc ++ sep ++ x ++ sep ++ y)
    refine ⟨acc ++ sep, q, ?_⟩
    rw [List.nil_append, show String.intercalate.go acc sep (x :: y :: l2)
          = String.intercalate.go (acc ++ sep ++ x ++ sep ++ y) sep l2 from rfl, hq]
    simp [String.append_assoc]
  | cons a l1 ih =>
    intro l2 acc
    obtain ⟨p, q, hpq⟩ := ih l2 (acc ++ sep ++ a)
    exact ⟨p, q, by
      rw [List.cons_append, show String.intercalate.go acc sep (a :: (l1 ++ x :: y :: l2))
            = String.intercalate.go (acc ++ sep ++ a) sep (l1 ++ x :: y :: l2) from rfl, hpq]⟩

/-- Decomposition of `String.intercalate` at a designated element. -/
theorem intercalate_decomp (sep x : String) (l1 l2 : List String) :
    ∃ p q, String.intercalate sep (l1 ++ x :: l2) = p ++ x ++ q := by
  cases l1 with
  | nil =>
    obtain ⟨q, hq⟩ := intercalate_go_extend sep l2 x
    exact ⟨"", q, by
      rw [List.nil_append, show String.intercalate sep (x :: l2)
            = String.intercalate.go x sep l2 from rfl, hq]
      simp⟩
  | cons a l1 =>
    obtain ⟨p, q, h⟩ := intercalate_go_decomp sep x l1 l2 a
    exact ⟨p, q, by
      rw [List.cons_append, show String.intercalate sep (a :: (l1 ++ x :: l2))
            = String.intercalate.go a sep (l1 ++ x :: l2) from rfl, h]⟩

/-- Decomposition of `String.intercalate` at an adjacent pair. -/
theorem intercalate_pair_decomp (sep x y : String) (l1 l2 : List String) :
    ∃ p q, String.intercalate sep (l1 ++ x :: y :: l2) = p ++ (x ++ sep ++ y) ++ q := by
  cases l1 with
  | nil =>
    obtain ⟨q, hq⟩ := intercalate_go_extend sep l2 (x ++ sep ++ y)
    refine ⟨"", q, ?_⟩
    rw [List.nil_append, show String.intercalate sep (x :: y :: l2)
          = String.intercalate.go (x ++ sep ++ y) sep l2 from rfl, hq]
    simp
  | cons a l1 =>
    obtain ⟨p, q, h⟩ := intercalate_go_pair sep x y l1 l2 a
    exact ⟨p, q, by
      rw [List.cons_append, show String.intercalate sep (a :: (l1 ++ x :: y :: l2))
            = String.intercalate.go a sep (l1 ++ x :: y :: l2) from rfl, h]⟩

/-- Substring containment composes through factors. -/
theorem ContainsSub.trans {s t u : String} (hst : ContainsSub s t)
    (htu : ContainsSub t u) : ContainsSub s u := by
  obtain ⟨p, q, rfl⟩ := hst
  obtain ⟨p', q', rfl⟩ := htu
  exact ⟨p ++ p', q' ++ q, by simp [String.append_assoc]⟩

/-- An intercalation starting with a nonempty element is nonempty. -/
theorem intercalate_cons_ne_empty (sep x : String) (l : List String)
    (hx : x ≠ "") : String.intercalate sep (x :: l) ≠ "" := by
  obtain ⟨q, hq⟩ := intercalate_go_extend sep l x
  intro h
  rw [show String.intercalate sep (x :: l) = String.intercalate.go x sep l from rfl,
    hq] at h
  have hlen : x.length + q.length = 0 := by
    rw [← String.length_append, h]
    rfl
  exact hx (eq_empty_of_length_zero (by omega))

/-- The last element of an `A ++ B ++ [line]` intercalation is contained
in it. -/
theorem intercalate_contains_last (sep line : String) (A B : List String) :
    ContainsSub (String.intercalate sep (A ++ B ++ [line])) line := by
  obtain ⟨p, q, h⟩ := intercalate_decomp sep line (A ++ B) []
  exact ⟨p, q, h⟩

/-- `RevisionDiff.get_summary` contains the similarity-score line
(the "no significant changes" branch is dead code: the line is appended
unconditionally before the emptiness test). -/
theorem get_summary_contains_simline (fmtPercent : ℚ → String) (d : RevisionDiff) :
    ContainsSub (d.get_summary fmtPercent)
      ("\n**Similarity Score:** " ++ fmtPercent d.similarity_score) := by
  simp only [RevisionDiff.get_summary]
  rw [if_pos (by simp)]
  exact intercalate_contains_last _ _ _ _

/-- C8: `get_revision_context` returns the empty string on a store with at
most one version; on a store with exactly two versions whose first summary
is set, it returns a nonempty string containing the "Version 1" review
summary header followed by that summary truncated to 2000 characters, and
the similarity-score line of the diff between the second-to-last and last
versions. -/
theorem revision_context_spec (dmp : DiffMatchPatch) (fmtPercent : ℚ → String)
    (st : TrackerState) :
    (st.versions.length ≤ 1 → get_revision_context dmp fmtPercent st = "")
    ∧ (∀ v1 v2 s1, st.versions = [v1, v2] → v1.review_summary = some s1 → s1 ≠ "" →
        get_revision_context dmp fmtPercent st ≠ ""
        ∧ ContainsSub (get_revision_context dmp fmtPercent st)
            ("\n### Version 1 Review Summary" ++ "\n\n" ++ pyTake s1 2000)
        ∧ ContainsSub (get_revision_context dmp fmtPercent st)
            ("\n**Similarity Score:** " ++ fmtPercent
              ((compareTexts dmp v1.manuscript.full_text
                v2.manuscript.full_text).similarity_score))) := by
  constructor
  · intro hle
    unfold get_revision_context
    rw [if_pos hle]
  · intro v1 v2 s1 hv hs1 hs1ne
    have hsummary := get_summary_contains_simline fmtPercent
      (compareTexts dmp v1.manuscript.full_text v2.manuscript.full_text)
    have hst : isTruthy (some s1) = true := by
      simp [isTruthy, hs1ne]
    have hb1 : ("\n### Version " ++ toString (1 : Nat) ++ " Review Summary")
        = "\n### Version 1 Review Summary" := by decide
    have hb1r : ("\n### Authors' Response to Version " ++ toString (1 : Nat) ++ " Review")
        = "\n### Authors' Response to Version 1 Review" := by decide
    have hb2 : ("This manuscript is on revision " ++ toString (2 : Nat) ++ ".")
        = "This manuscript is on revision 2." := by decide
    cases hresp : isTruthy v1.author_response with
    | false =>
      have hctx : get_revision_context dmp fmtPercent st =
          String.intercalate "\n\n"
            ["This manuscript is on revision 2.",
             "\n### Version 1 Review Summary", pyTake s1 2000,
             "\n### Changes from Previous Version",
             (compareTexts dmp v1.manuscript.full_text
               v2.manuscript.full_text).get_summary fmtPercent] := by
        simp [get_revision_context, hv, contextParts, hst, hs1, hresp, hb1, hb2]
      refine ⟨?_, ?_, ?_⟩
      · rw [hctx]
        exact intercalate_cons_ne_empty _ _ _ (by decide)
      · rw [hctx]
        obtain ⟨p, q, h⟩ := intercalate_pair_decomp "\n\n"
          "\n### Version 1 Review Summary" (pyTake s1 2000)
          ["This manuscript is on revision 2."]
          ["\n### Changes from Previous Version",
           (compareTexts dmp v1.manuscript.full_text
             v2.manuscript.full_text).get_summary fmtPercent]
        exact ⟨p, q, h⟩
      · rw [hctx]
        obtain ⟨p, q, h⟩ := intercalate_decomp "\n\n"
          ((compareTexts dmp v1.manuscript.full_text
            v2.manuscript.full_text).get_summary fmtPercent)
          ["This manuscript is on revision 2.",
           "\n### Version 1 Review Summary", pyTake s1 2000,
           "\n### Changes from Previous Version"] []
        exact ContainsSub.trans ⟨p, q, h⟩ hsummary
    | true =>
      have hctx : get_revision_context dmp fmtPercent st =
          String.intercalate "\n\n"
            ["This manuscript is on revision 2.",
             "\n### Version 1 Review Summary", pyTake s1 2000,
             "\n### Authors' Response to Version 1 Review",
             pyTake (v1.author_response.getD "") 2000,
             "\n### Changes from Previous Version",
             (compareTexts dmp v1.manuscript.full_text
               v2.manuscript.full_text).get_summary fmtPercent] := by
        simp [get_revision_context, hv, contextParts, hst, hs1, hresp, hb1, hb1r, hb2]
      refine ⟨?_, ?_, ?_⟩
      · rw [hctx]
        exact intercalate_cons_ne_empty _ _ _ (by decide)
      · rw [hctx]
        obtain ⟨p, q, h⟩ := intercalate_pair_decomp "\n\n"
          "\n### Version 1 Review Summary" (pyTake s1 2000)
          ["This manuscript is on revision 2."]
          ["\n### Authors' Response to Version 1 Review",
           pyTake (v1.author_response.getD "") 2000,
           "\n### Changes from Previous Version",
           (compareTexts dmp v1.manuscript.full_text
             v2.manuscript.full_text).get_summary fmtPercent]
        exact ⟨p, q, h⟩
      · rw [hctx]
        obtain ⟨p, q, h⟩ := intercalate_decomp "\n\n"
          ((compareTexts dmp v1.manuscript.full_text
            v2.manuscript.full_text).get_summary fmtPercent)
          ["This manuscript is on revision 2.",
           "\n### Version 1 Review Summary", pyTake s1 2000,
           "\n### Authors' Response to Version 1 Review",
           pyTake (v1.author_response.getD "") 2000,
           "\n### Changes from Previous Version"] []
        exact ContainsSub.trans ⟨p, q, h⟩ hsummary

/-- Witness for C8: the two-version store with summaries set. -/
theorem revision_context_spec_witness :
    get_revision_context simpleDMP (fun _ => "0.0%") storeTwoW ≠ ""
    ∧ ContainsSub (get_revision_context simpleDMP (fun _ => "0.0%") storeTwoW)
        ("\n### Version 1 Review Summary" ++ "\n\n" ++ pyTake "Good paper" 2000)
    ∧ ContainsSub (get_revision_context simpleDMP (fun _ => "0.0%") storeTwoW)
        ("\n**Similarity Score:** " ++ "0.0%") := by
  have h := (revision_context_spec simpleDMP (fun _ => "0.0%") storeTwoW).2
    ⟨⟨"T1", "old text", "h1", none⟩, 1, some "Good paper", none, none, "t1"⟩
    ⟨⟨"T2", "new text", "h2", none⟩, 2, some "Better", none, none, "t2"⟩
    "Good paper" rfl rfl (by decide)
  exact ⟨h.1, h.2.1, h.2.2⟩

/-! ## C10: `run_tools` ordering and the unknown-tool error -/

/-- If every call names the registered PubMed tool, `run_tools` returns
successfully. -/
theorem run_tools_ok_of_all (env : Env) :
    ∀ l : List ToolCall, (∀ tc ∈ l, tc.name = PUBMED_TOOL_NAME) →
      ∃ v, (run_tools env l).2 = .ok v := by
  intro l
  induction l with
  | nil => intro _; exact ⟨([], []), rfl⟩
  | cons tc rest ih =>
    intro hall
    obtain ⟨⟨outs, msgs⟩, hv⟩ := ih fun c hc => hall c (List.mem_cons_of_mem tc hc)
    rcases hrest : run_tools env rest with ⟨log, r⟩
    rw [hrest] at hv
    simp only at hv
    subst hv
    refine ⟨(env.search tc.arguments :: outs,
      ChatMessage.tool tc.id (env.search tc.arguments) :: msgs), ?_⟩
    simp [run_tools, hall tc (List.mem_cons_self tc rest), hrest]

/-- If `run_tools` returns successfully, every call named the registered
PubMed tool. -/
theorem run_tools_all_of_ok (env : Env) :
    ∀ l : List ToolCall, (∃ v, (run_tools env l).2 = .ok v) →
      ∀ tc ∈ l, tc.name = PUBMED_TOOL_NAME := by
  intro l
  induction l with
  | nil => intro _ tc hc; simp at hc
  | cons tc rest ih =>
    intro hex c hc
    obtain ⟨v, hv⟩ := hex
    by_cases h : tc.name = PUBMED_TOOL_NAME
    · rcases hrest : run_tools env rest with ⟨log, r⟩
      cases r with
      | error e =>
        rw [show (run_tools env (tc :: rest)).2 = .error e from by
          simp [run_tools, h, hrest]] at hv
        simp at hv
      | ok w =>
        rcases List.mem_cons.mp hc with rfl | hc'
        · exact h
        · exact ih ⟨w, by rw [hrest]⟩ c hc'
    · rw [show (run_tools env (tc :: rest)).2 = .error ("Unknown tool: " ++ tc.name) from by
        simp [run_tools, h]] at hv
      simp at hv

/-- `run_tools` processes the calls in order: at the first unknown name it
raises, having already executed the search of every earlier (registered)
call, and returns nothing. -/
theorem run_tools_error_at (env : Env) :
    ∀ (pre : List ToolCall) (bad : ToolCall) (post : List ToolCall),
      (∀ tc ∈ pre, tc.name = PUBMED_TOOL_NAME) → bad.name ≠ PUBMED_TOOL_NAME →
      (run_tools env (pre ++ bad :: post)).1 = pre.map ToolCall.arguments
      ∧ (run_tools env (pre ++ bad :: post)).2 =
          .error ("Unknown tool: " ++ bad.name) := by
  intro pre
  induction pre with
  | nil =>
    intro bad post _ hbad
    constructor <;> simp [run_tools, hbad]
  | cons tc pre ih =>
    intro bad post hpre hbad
    obtain ⟨ih1, ih2⟩ := ih bad post (fun c hc => hpre c (List.mem_cons_of_mem tc hc)) hbad
    rcases hrest : run_tools env (pre ++ bad :: post) with ⟨log, r⟩
    rw [hrest] at ih1 ih2
    simp only at ih1 ih2
    subst ih1
    subst ih2
    constructor <;>
      simp [run_tools, hpre tc (List.mem_cons_self tc pre), hrest]

/-- C10: `run_tools` processes the tool-call list strictly in order and
raises the unknown-tool `ValueError` iff some call names a tool other than
the registered PubMed search tool; when the unknown call is not first,
every earlier registered call's search has been executed before the error
is raised; on error no outputs or tool messages are returned (argument
parsing and the search itself are modelled as total, per spec §6, so the
only failure is the unknown name). -/
theorem run_tools_spec (env : Env) (tool_calls : List ToolCall) :
    ((∃ v, (run_tools env tool_calls).2 = .ok v) ↔
      ∀ tc ∈ tool_calls, tc.name = PUBMED_TOOL_NAME)
    ∧ (∀ pre bad post, tool_calls = pre ++ bad :: post →
        (∀ tc ∈ pre, tc.name = PUBMED_TOOL_NAME) →
        bad.name ≠ PUBMED_TOOL_NAME →
        (run_tools env tool_calls).1 = pre.map ToolCall.arguments
        ∧ (run_tools env tool_calls).2 = .error ("Unknown tool: " ++ bad.name)) := by
  refine ⟨⟨run_tools_all_of_ok env tool_calls, run_tools_ok_of_all env tool_calls⟩,
    fun pre bad post heq hpre hbad => ?_⟩
  subst heq
  exact run_tools_error_at env pre bad post hpre hbad

/-- Witness for C10: one registered call followed by an unknown one — the
first search ran, then the `ValueError`. -/
theorem run_tools_spec_witness :
    (run_tools envPlain
        [⟨"a", "pubmed_search", "q1"⟩, ⟨"b", "badtool", "q2"⟩]).1 =
      ([⟨"a", "pubmed_search", "q1"⟩] : List ToolCall).map ToolCall.arguments
    ∧ (run_tools envPlain
        [⟨"a", "pubmed_search", "q1"⟩, ⟨"b", "badtool", "q2"⟩]).2 =
      .error ("Unknown tool: " ++ "badtool") :=
  (run_tools_spec envPlain
      [⟨"a", "pubmed_search", "q1"⟩, ⟨"b", "badtool", "q2"⟩]).2
    [⟨"a", "pubmed_search", "q1"⟩] ⟨"b", "badtool", "q2"⟩ [] rfl
    (by decide) (by decide)

/-! ## C7: team validation happens before any backend call -/

/-- C7: a panel run over an explicitly given malformed team — the editor
appears among the reviewers, two reviewers are equal, or the reviewer tuple
is empty — fails with a validation `ValueError` with zero backend calls
recorded. -/
theorem invalid_team_zero_calls (env : Env) (editor : Agent)
    (reviewers : List Agent) (num_rounds : Nat)
    (h : editor ∈ reviewers ∨ reviewers.dedup.length ≠ reviewers.length
      ∨ reviewers = []) :
    ∃ msg, run_review_panel env editor reviewers none num_rounds = .error (msg, 0) := by
  by_cases h0 : reviewers.length = 0
  · exact ⟨_, by unfold run_review_panel; rw [if_pos h0]⟩
  · by_cases hmem : editor ∈ reviewers
    · exact ⟨_, by
        unfold run_review_panel
        rw [if_neg h0, if_neg (by simp), if_pos hmem]⟩
    · have hdup : reviewers.dedup.length ≠ reviewers.length := by
        rcases h with h | h | h
        · exact absurd h hmem
        · exact h
        · subst h; simp at h0
      exact ⟨_, by
        unfold run_review_panel
        rw [if_neg h0, if_neg (by simp), if_neg hmem, if_pos hdup]⟩

/-- Witness for C7: a team with a duplicated reviewer. -/
theorem invalid_team_zero_calls_witness :
    ∃ msg, run_review_panel envPlain editorW [reviewerW1, reviewerW1] none 1 =
      .error (msg, 0) :=
  invalid_team_zero_calls envPlain editorW [reviewerW1, reviewerW1] 1
    (Or.inr (Or.inl (by
      rw [List.dedup_cons_of_mem (by simp)]
      simp)))

/-! ## C9: finalized token accounting -/

/-- The `enumerate` loop of `count_discussion_tokens`, characterized:
it aggregates over every non-`"User"` entry the tokens of the prefix
before it (input), the entry's own tokens (output), and the running
maximum of their sum. -/
theorem countAux_eq (tk : String → Nat) :
    ∀ (rest : List Turn) (tc : TokenCounts) (pre : List Turn),
      countAux tk tc pre rest =
        { input := tc.input +
            (((withPrefixes pre rest).filter fun p => isNonUser p.2).map
              fun p => prefixTokens tk p.1).sum
          output := tc.output + ((rest.filter isNonUser).map fun t => tk t.message).sum
          max := ((withPrefixes pre rest).filter fun p => isNonUser p.2).foldl
              (fun acc p => max acc (prefixTokens tk p.1 + tk p.2.message)) tc.max
          tool := tc.tool } := by
  intro rest
  induction rest with
  | nil => intro tc pre; simp [countAux, withPrefixes]
  | cons t rest ih =>
    intro tc pre
    cases h : (t.agent != "User") with
    | false =>
      have hstep : countAux tk tc pre (t :: rest) = countAux tk tc (pre ++ [t]) rest := by
        simp [countAux, h]
      rw [hstep, ih]
      simp [withPrefixes, List.filter_cons, isNonUser, h]
    | true =>
      have hstep : countAux tk tc pre (t :: rest) =
          countAux tk (update_token_counts tk tc pre t.message) (pre ++ [t]) rest := by
        simp [countAux, h]
      rw [hstep, ih]
      simp only [withPrefixes, List.filter_cons, isNonUser, h, update_token_counts,
        List.map_cons, List.sum_cons, prefixTokens, if_pos]
      refine TokenCounts.mk.injEq _ _ _ _ _ _ _ _ ▸ ⟨by omega, by omega, rfl, rfl⟩

/-- An `Except`-valued fold preserves any invariant its step preserves. -/
theorem foldlM_except_preserve {α β ε : Type} (P : β → Prop)
    (f : β → α → Except ε β)
    (hf : ∀ b a b', P b → f b a = .ok b' → P b') :
    ∀ (l : List α) (b b' : β), P b → l.foldlM f b = .ok b' → P b' := by
  intro l
  induction l with
  | nil =>
    intro b b' hP h
    rw [List.foldlM_nil] at h
    cases h
    exact hP
  | cons a l ih =>
    intro b b' hP h
    rw [List.foldlM_cons] at h
    cases hfa : f b a with
    | error e =>
      rw [hfa] at h
      cases h
    | ok b1 =>
      rw [hfa] at h
      exact ih b1 b' (hf b a b1 hP hfa) h

/-- The tool-token invariant: the accumulated tool token count is the total
token count of the tool outputs executed so far. -/
def ToolInv (tk : String → Nat) (st : RunState) : Prop :=
  st.tool_token_count = (st.toolOutputsLog.map tk).sum

/-- A single turn preserves the tool-token invariant. -/
theorem runTurn_toolInv (env : Env) (editor : Agent)
    (num_rounds round_index : Nat) (agent : Agent) (st st' : RunState)
    (h : runTurn env editor num_rounds round_index agent st = .ok st')
    (hinv : ToolInv env.tk st) : ToolInv env.tk st' := by
  simp only [runTurn] at h
  split at h
  · cases h
    exact hinv
  · split at h
    · cases h
    · cases h
      unfold ToolInv at hinv ⊢
      simp [List.map_append, List.sum_append, hinv]

/-- The team loop preserves the tool-token invariant. -/
theorem runAgents_toolInv (env : Env) (editor : Agent)
    (num_rounds round_index : Nat) :
    ∀ (agents : List Agent) (st st' : RunState),
      runAgents env editor num_rounds round_index agents st = .ok st' →
      ToolInv env.tk st → ToolInv env.tk st' := by
  intro agents
  induction agents with
  | nil =>
    intro st st' h hinv
    cases h
    exact hinv
  | cons agent rest ih =>
    intro st st' h hinv
    unfold runAgents at h
    cases hturn : runTurn env editor num_rounds round_index agent st with
    | error e => rw [hturn] at h; cases h
    | ok st1 =>
      rw [hturn] at h
      have h' : (if round_index = num_rounds then Except.ok st1
          else runAgents env editor num_rounds round_index rest st1) = Except.ok st' := h
      have hinv1 := runTurn_toolInv env editor num_rounds round_index agent st st1
        hturn hinv
      by_cases hfin : round_index = num_rounds
      · rw [if_pos hfin] at h'
        cases h'
        exact hinv1
      · rw [if_neg hfin] at h'
        exact ih st1 st' h' hinv1

/-- C9 amended: when a run completes, the finalized token accounting sums
over every non-`"User"` transcript entry — the `Tool` entries included,
not only the assistant (agent-attributed) entries as the claim states:
input is the sum of the prefix token counts before each such entry, output
the sum of their own token counts, max the largest prefix+own sum among
them, and tool the total token count of the executed tool outputs. -/
theorem token_accounting_finalization (env : Env) (editor : Agent)
    (reviewers : List Agent) (reviewer : Option Agent) (num_rounds : Nat) :
    ((run_review_panel env editor reviewers reviewer num_rounds).toOption.map
        fun res => res.token_counts) =
    ((run_review_panel env editor reviewers reviewer num_rounds).toOption.map
        fun res =>
          { input := nonUserInput env.tk res.discussion
            output := nonUserOutput env.tk res.discussion
            max := nonUserMax env.tk res.discussion
            tool := (res.toolOutputsLog.map env.tk).sum }) := by
  unfold run_review_panel
  split_ifs
  · rfl
  · rfl
  · rfl
  · rfl
  · rcases hfold : (List.range (num_rounds + 1)).foldlM
        (fun st round_index =>
          runAgents env editor num_rounds round_index (editor :: reviewers) st)
        { messages := [.user env.startPrompt]
          discussion := [⟨"User", env.startPrompt⟩]
          tool_token_count := 0
          toolOutputsLog := []
          calls := 0 } with e | st
    · rfl
    · simp only [Except.toOption, Option.map]
      congr 1
      have hcount := countAux_eq env.tk st.discussion ⟨0, 0, 0, 0⟩ []
      have hinv : ToolInv env.tk st := by
        refine foldlM_except_preserve (ToolInv env.tk) _ ?_ _ _ st (by rfl) hfold
        intro b a b' hP hfa
        exact runAgents_toolInv env editor num_rounds a (editor :: reviewers) b b'
          hfa hP
      unfold ToolInv at hinv
      simp only [count_discussion_tokens, hcount]
      unfold nonUserInput nonUserOutput nonUserMax
      simp [hinv]

/-- C9 counterexample: a completed panel run with one tool call. The
finalized `input` (and `output`/`max`) replay includes the `Tool`
transcript entry, so `input` differs from the sum over exactly the
assistant (agent-attributed) entries that the claim describes. -/
theorem tool_entry_counted_in_input :
    (runToolOnce.toOption.map fun res => res.token_counts.input) ≠
      (runToolOnce.toOption.map fun res =>
        claimAssistantInput String.length res.discussion)
    ∧ (runToolOnce.toOption.map fun res => res.token_counts.input).isSome = true := by
  constructor
  · decide
  · decide

/-! ## C3: turn pattern of a two-round panel with three reviewers -/

/-- Bind of a successful `Except` computation. -/
theorem except_ok_bind {ε α β : Type} (a : α) (f : α → Except ε β) :
    (Except.ok (ε := ε) a >>= f) = f a := rfl

/-- With a backend that never requests tools, a turn appends exactly one
`User` prompt entry and one entry attributed to the acting agent. -/
theorem runTurn_ok_shape (env : Env)
    (hNT : ∀ n msgs, (env.backend n msgs).tool_calls = [])
    (editor : Agent) (num_rounds round_index : Nat) (agent : Agent) (st : RunState) :
    ∃ st' p c, runTurn env editor num_rounds round_index agent st = .ok st'
      ∧ st'.discussion = st.discussion ++ [⟨"User", p⟩, ⟨agent.title, c⟩] := by
  have key : runTurn env editor num_rounds round_index agent st = .ok
      { messages := (st.messages ++
            [.user (turnPrompt env editor num_rounds round_index agent)]) ++
            [.assistant (((env.backend st.calls (agent.message ::
              (st.messages ++
                [.user (turnPrompt env editor num_rounds round_index agent)]))).content).getD "")],
        discussion := (st.discussion ++
            [⟨"User", turnPrompt env editor num_rounds round_index agent⟩]) ++
            [⟨agent.title, ((env.backend st.calls (agent.message ::
              (st.messages ++
                [.user (turnPrompt env editor num_rounds round_index agent)]))).content).getD ""⟩],
        tool_token_count := st.tool_token_count,
        toolOutputsLog := st.toolOutputsLog,
        calls := st.calls + 1 } := by
    simp only [runTurn]
    rw [if_pos (hNT _ _)]
  refine ⟨_, turnPrompt env editor num_rounds round_index agent,
    ((env.backend st.calls (agent.message ::
      (st.messages ++ [.user (turnPrompt env editor num_rounds round_index agent)]))).content).getD "",
    key, ?_⟩
  simp

/-- Appending a `User` prompt and an agent-attributed entry extends the
assistant attribution list by that agent's title. -/
theorem assistantAgents_append_turn (d : List Turn) (p t c : String)
    (hU : t ≠ "User") (hT : t ≠ "Tool") :
    assistantAgents (d ++ [⟨"User", p⟩, ⟨t, c⟩]) = assistantAgents d ++ [t] := by
  simp [assistantAgents, claimIsAssistant, List.filter_append, List.filter_cons, hU, hT]

/-- A non-final round cycles the whole team in order, contributing one
assistant entry per team member. -/
theorem runAgents_assistants (env : Env)
    (hNT : ∀ n msgs, (env.backend n msgs).tool_calls = [])
    (editor : Agent) (num_rounds round_index : Nat)
    (hne : round_index ≠ num_rounds) :
    ∀ (agents : List Agent) (st : RunState),
      (∀ a ∈ agents, a.title ≠ "User" ∧ a.title ≠ "Tool") →
      ∃ st', runAgents env editor num_rounds round_index agents st = .ok st'
        ∧ assistantAgents st'.discussion
            = assistantAgents st.discussion ++ agents.map Agent.title := by
  intro agents
  induction agents with
  | nil => intro st _; exact ⟨st, rfl, by simp⟩
  | cons agent rest ih =>
    intro st htitles
    obtain ⟨st1, p, c, hrun, hdisc⟩ :=
      runTurn_ok_shape env hNT editor num_rounds round_index agent st
    obtain ⟨st', hrun', hassist⟩ :=
      ih st1 fun a ha => htitles a (List.mem_cons_of_mem _ ha)
    refine ⟨st', ?_, ?_⟩
    · unfold runAgents
      rw [hrun]
      have hred : (if round_index = num_rounds then Except.ok st1
          else runAgents env editor num_rounds round_index rest st1) = Except.ok st' := by
        rw [if_neg hne]
        exact hrun'
      exact hred
    · rw [hassist, hdisc, assistantAgents_append_turn _ _ _ _
        (htitles agent (List.mem_cons_self _ _)).1
        (htitles agent (List.mem_cons_self _ _)).2]
      simp

/-- On the final round, the loop breaks after the first team member (the
editor), contributing exactly one assistant entry. -/
theorem runAgents_final_assistants (env : Env)
    (hNT : ∀ n msgs, (env.backend n msgs).tool_calls = [])
    (editor : Agent) (num_rounds : Nat) (agent : Agent) (rest : List Agent)
    (st : RunState) (hU : agent.title ≠ "User") (hT : agent.title ≠ "Tool") :
    ∃ st', runAgents env editor num_rounds num_rounds (agent :: rest) st = .ok st'
      ∧ assistantAgents st'.discussion
          = assistantAgents st.discussion ++ [agent.title] := by
  obtain ⟨st1, p, c, hrun, hdisc⟩ :=
    runTurn_ok_shape env hNT editor num_rounds num_rounds agent st
  refine ⟨st1, ?_, ?_⟩
  · unfold runAgents
    rw [hrun]
    have hred : (if num_rounds = num_rounds then Except.ok st1
        else runAgents env editor num_rounds num_rounds rest st1) = Except.ok st1 :=
      if_pos rfl
    exact hred
  · rw [hdisc, assistantAgents_append_turn _ _ _ _ hU hT]

/-- C3: a panel run with `num_rounds = 2`, one editor and three distinct
reviewers, and a backend that never requests tools, completes with exactly
9 assistant (agent-attributed) transcript entries: rounds 0 and 1 each
contribute one editor turn followed by the three reviewer turns in order,
and the final round contributes exactly one editor turn — the rest of the
team is not cycled. -/
theorem panel_two_rounds_turn_pattern (env : Env) (editor r1 r2 r3 : Agent)
    (h1 : r1 ≠ editor) (h2 : r2 ≠ editor) (h3 : r3 ≠ editor)
    (h12 : r1 ≠ r2) (h13 : r1 ≠ r3) (h23 : r2 ≠ r3)
    (hU : ∀ a ∈ [editor, r1, r2, r3], a.title ≠ "User" ∧ a.title ≠ "Tool")
    (hNT : ∀ n msgs, (env.backend n msgs).tool_calls = []) :
    ∃ res, run_review_panel env editor [r1, r2, r3] none 2 = .ok res ∧
      assistantAgents res.discussion =
        [editor.title, r1.title, r2.title, r3.title,
         editor.title, r1.title, r2.title, r3.title, editor.title] := by
  obtain ⟨st1, hr0, ha0⟩ := runAgents_assistants env hNT editor 2 0 (by decide)
    (editor :: [r1, r2, r3])
    { messages := [.user env.startPrompt]
      discussion := [⟨"User", env.startPrompt⟩]
      tool_token_count := 0
      toolOutputsLog := []
      calls := 0 } hU
  obtain ⟨st2, hr1, ha1⟩ := runAgents_assistants env hNT editor 2 1 (by decide)
    (editor :: [r1, r2, r3]) st1 hU
  obtain ⟨st3, hr2, ha2⟩ := runAgents_final_assistants env hNT editor 2 editor
    [r1, r2, r3] st2 (hU editor (by simp)).1 (hU editor (by simp)).2
  have hfold : (List.range (2 + 1)).foldlM
      (fun st round_index =>
        runAgents env editor 2 round_index (editor :: [r1, r2, r3]) st)
      { messages := [.user env.startPrompt]
        discussion := [⟨"User", env.startPrompt⟩]
        tool_token_count := 0
        toolOutputsLog := []
        calls := 0 } = .ok st3 := by
    rw [show List.range (2 + 1) = [0, 1, 2] from rfl]
    simp only [List.foldlM_cons, List.foldlM_nil, hr0, except_ok_bind, hr1, hr2]
    rfl
  have hvalmem : editor ∉ [r1, r2, r3] := by
    intro hmem
    simp only [List.mem_cons, List.mem_singleton, List.not_mem_nil, or_false] at hmem
    rcases hmem with h | h | h
    · exact h1 h.symm
    · exact h2 h.symm
    · exact h3 h.symm
  have hnodup : ([r1, r2, r3] : List Agent).Nodup := by
    simp [List.nodup_cons, h12, h13, h23]
  have hdedup : ¬(([r1, r2, r3] : List Agent).dedup.length ≠ [r1, r2, r3].length) := by
    rw [List.Nodup.dedup hnodup]
    simp
  have hrun : run_review_panel env editor [r1, r2, r3] none 2 = .ok
      { discussion := st3.discussion,
        token_counts :=
          { input := (count_discussion_tokens env.tk st3.discussion).input,
            output := (count_discussion_tokens env.tk st3.discussion).output,
            max := (count_discussion_tokens env.tk st3.discussion).max,
            tool := st3.tool_token_count },
        summary := get_summary st3.discussion,
        calls := st3.calls,
        toolOutputsLog := st3.toolOutputsLog } := by
    unfold run_review_panel
    rw [if_neg (by simp), if_neg (by simp), if_neg hvalmem, if_neg hdedup, hfold]
  refine ⟨_, hrun, ?_⟩
  show assistantAgents st3.discussion = _
  rw [ha2, ha1, ha0]
  simp [assistantAgents, claimIsAssistant]

/-- Witness for C3 at a concrete team and a plain backend. -/
theorem panel_two_rounds_turn_pattern_witness :
    ∃ res, run_review_panel envPlain editorW [reviewerW1, reviewerW2, reviewerW3]
        none 2 = .ok res ∧
      assistantAgents res.discussion =
        [editorW.title, reviewerW1.title, reviewerW2.title, reviewerW3.title,
         editorW.title, reviewerW1.title, reviewerW2.title, reviewerW3.title,
         editorW.title] :=
  panel_two_rounds_turn_pattern envPlain editorW reviewerW1 reviewerW2 reviewerW3
    (by decide) (by decide) (by decide) (by decide) (by decide) (by decide)
    (by decide) (fun _ _ => rfl)

end VMR

